import Mathlib

/-!
Shallow embedding of the cricket_player_analysis repository
(`src/cricket_player_analysis/eda.py` and `data_summary.py`) and proofs of
the specification's claims about the Group Materializer
(`DataSummary.create_dataframes_from_json`), the Schema Normalizer
(`EDA.virat_rename_columns` / `EDA.bumrah_rename_columns` /
`EDA.remove_columns`), the fetch collaborator
(`DataSummary.fetch_player_stats`) and the prefixed-globals registry
(`DataSummary.create_prefixed_global_dataframes`).
-/

namespace Cricket

/-- A scalar cell value of a table. `na` models pandas' missing value
(`NaN`), produced when a record lacks a key that another record of the
same group has. -/
inductive Val where
  | str (s : String)
  | int (n : Int)
  | na
deriving DecidableEq

/-- First-match association-list lookup, the semantics of Python
`dict.get` on the dictionaries the code builds (all literal dicts in the
source have distinct keys, so first-match agrees with Python). -/
def lookupA {κ α : Type} [DecidableEq κ] : List (κ × α) → κ → Option α
  | [], _ => none
  | p :: m, k => if p.1 = k then some p.2 else lookupA m k

/-- A pandas `DataFrame` as the code uses it: an ordered list of column
labels and rows of cell values positionally aligned with the labels. -/
structure DataFrame where
  cols : List String
  rows : List (List Val)
deriving DecidableEq

/-- The batting-role column map of `EDA.virat_rename_columns`
(eda.py lines 43-59), short provider codes to descriptive names. -/
def virat_columns_names : List (String × String) :=
  [("tt", "overview"), ("sp", "span"), ("mt", "matches"), ("in", "innings"),
   ("rn", "runs"), ("fo", "4s"), ("si", "6s"), ("ft", "50s"),
   ("hn", "100s"), ("bf", "balls_faced"), ("dk", "0s"), ("no", "not_out"),
   ("hs", "high_score"), ("bta", "average"), ("btsr", "strike_rate")]

/-- The bowling-role column map of `EDA.bumrah_rename_columns`
(eda.py lines 85-101). -/
def bumrah_columns_names : List (String × String) :=
  [("tt", "overview"), ("sp", "span"), ("mt", "matches"), ("in", "innings"),
   ("ov", "overs"), ("cd", "runs"), ("md", "maiden"), ("wk", "wickets"),
   ("fw", "5w"), ("tw", "10w"), ("bbi", "best_bowling_in_innings"),
   ("bbm", "best_bowling_in_match"), ("bwa", "average"), ("bwe", "economy"),
   ("bwsr", "strike_rate")]

/-- `pandas.DataFrame.rename(columns=m)`: every column label that is a key
of `m` is replaced by its image, all other labels pass through. -/
def renameCols (m : List (String × String)) (df : DataFrame) : DataFrame :=
  { df with cols := df.cols.map (fun c => (lookupA m c).getD c) }

/-- `EDA.virat_rename_columns` (eda.py lines 29-69): restrict the batting
map to the keys present in the table, then rename. -/
def virat_rename_columns (df : DataFrame) : DataFrame :=
  let columns_to_rename :=
    virat_columns_names.filter (fun p => decide (p.1 ∈ df.cols))
  renameCols columns_to_rename df

/-- `EDA.bumrah_rename_columns` (eda.py lines 71-111): restrict the
bowling map to the keys present in the table, then rename. -/
def bumrah_rename_columns (df : DataFrame) : DataFrame :=
  let columns_to_rename :=
    bumrah_columns_names.filter (fun p => decide (p.1 ∈ df.cols))
  renameCols columns_to_rename df

/-- `pandas.DataFrame.drop(columns=rem)`: remove every column whose label
is in `rem`, together with the positionally corresponding cell of every
row. -/
def dropCols (rem : List String) (df : DataFrame) : DataFrame :=
  { cols := df.cols.filter (fun c => decide (c ∉ rem)),
    rows := df.rows.map (fun r =>
      ((df.cols.zip r).filter (fun p => decide (p.1 ∉ rem))).map Prod.snd) }

/-- The prune set hard-coded in `EDA.remove_columns` (eda.py line 124). -/
def eda_columns_to_remove : List String := ["pr", "fwk", "bl"]

/-- `EDA.remove_columns` (eda.py lines 113-133). The first component is
the table after the in-place `drop`; the second is the method's Python
return value, which is `None` because the `return dataframe` statement at
eda.py line 133 is commented out. -/
def remove_columns (df : DataFrame) : DataFrame × Option DataFrame :=
  let columns_to_remove :=
    eda_columns_to_remove.filter (fun c => decide (c ∈ df.cols))
  (dropCols columns_to_remove df, none)

/-- `DataSummary.remove_columns` (data_summary.py lines 121-139): same
drop with a caller-supplied prune list, and it does return the table. -/
def ds_remove_columns (df : DataFrame) (columns_to_remove : List String) :
    DataFrame :=
  let present := columns_to_remove.filter (fun c => decide (c ∈ df.cols))
  dropCols present df

/-- The Schema Normalizer for the batting role: the rename step followed
by the prune step (the table state after the in-place drop). -/
def normalize_batting (df : DataFrame) : DataFrame :=
  (remove_columns (virat_rename_columns df)).1

/-- The Schema Normalizer for the bowling role. -/
def normalize_bowling (df : DataFrame) : DataFrame :=
  (remove_columns (bumrah_rename_columns df)).1

/-! ## Group Materializer (`data_summary.py`) -/

/-- One record of a stat group: a JSON object mapping short provider codes
to scalar values (distinct keys in provider data; modelled as an
association list). -/
abbrev Record := List (String × Val)

/-- A `StatGroup`: one `{"stats": [...]}` entry of the document. -/
structure StatGroup where
  stats : List Record
deriving DecidableEq

/-- The `summary` section of the payload, holding the ordered group
sequence. -/
structure SummarySection where
  groups : List StatGroup
deriving DecidableEq

/-- The parsed hierarchical payload
`{ summary: { groups: [ { stats: [...] }, ... ] } }`. -/
structure StatsDoc where
  summary : SummarySection
deriving DecidableEq

/-- Keys of a record, in record order. -/
def recordKeys (r : Record) : List String := r.map Prod.fst

/-- Keep the first occurrence of each element not yet in `seen`, dropping
later duplicates. -/
def dedupAux (seen : List String) : List String → List String
  | [] => []
  | k :: ks =>
      if k ∈ seen then dedupAux seen ks else k :: dedupAux (k :: seen) ks

/-- Keep the first occurrence of each element, dropping later duplicates:
the column order `pandas.DataFrame` gives a list of dicts
(first-appearance order of keys). -/
def firstDedup (l : List String) : List String := dedupAux [] l

/-- The column list `pandas.DataFrame(records)` produces for a list of
dicts: the union of all record keys, in first-appearance order. -/
def pd_Columns (records : List Record) : List String :=
  firstDedup (records.map recordKeys).flatten

/-- `pandas.DataFrame(records)` on a list of dicts: columns are the union
of all record keys in first-appearance order; each row holds, for each
column, the record's value there or `Val.na` when the record lacks the
key. -/
def pd_DataFrame (records : List Record) : DataFrame :=
  { cols := pd_Columns records,
    rows := records.map (fun r =>
      (pd_Columns records).map (fun c => (lookupA r c).getD Val.na)) }

/-- The canonical ordered table-name list hard-coded in
`DataSummary.create_dataframes_from_json` (data_summary.py lines 82-107),
24 entries. -/
def dataframes_names : List String :=
  ["df_career_averages", "df_in_format", "df_vs_team", "df_in_host_country",
   "df_in_continent", "df_home_vs_away", "df_by_year", "df_by_season",
   "df_captains_involved", "df_is_not_captain", "df_is_not_keeper",
   "df_toss", "df_toss_and_batting_sequence",
   "df_batting_first_vs_fielding_first", "df_in_team_innings",
   "df_in_match_innings", "df_in_match_type", "df_match_result",
   "df_result_and_batting_sequence", "df_in_tournament_type",
   "df_in_match_number_per_series", "df_in_major_trophies", "df_in_finals",
   "df_position"]

/-- The name bound to the group at zero-based position `i`
(data_summary.py lines 113-117): the canonical name when `i` is in range,
otherwise the synthesized overflow name embedding the index. -/
def nameFor (i : Nat) : String :=
  if i < dataframes_names.length then dataframes_names.getD i ""
  else "unnamed_dataframe_" ++ toString i

/-- The enumeration loop of `create_dataframes_from_json`
(data_summary.py lines 110-117), carrying the position counter `i`.
Insertion into the Python dict `df_dic` is modelled as an association
list in insertion order (all bound names are distinct). -/
def create_aux (i : Nat) : List StatGroup → List (String × DataFrame)
  | [] => []
  | g :: gs => (nameFor i, pd_DataFrame g.stats) :: create_aux (i + 1) gs

/-- `DataSummary.create_dataframes_from_json` (data_summary.py lines
70-119): one named table per group of `json_data["summary"]["groups"]`. -/
def create_dataframes_from_json (json_data : StatsDoc) :
    List (String × DataFrame) :=
  create_aux 0 json_data.summary.groups

/-! ## Fetch collaborator (`data_summary.py` lines 42-68) -/

/-- An HTTP response as `fetch_player_stats` consumes it. `body` stands
for the parsed JSON value of the response text (`json.loads(response.text)`,
an external parser outside this repository). -/
structure HttpResponse where
  status_code : Nat
  body : StatsDoc

/-- Result of the fetch: either the parsed stats summary (the `dict`
branch) or the error string the method builds from the status code. -/
inductive FetchResult where
  | stats (d : StatsDoc)
  | error (msg : String)
deriving DecidableEq

/-- `DataSummary.fetch_player_stats` (data_summary.py lines 42-68),
abstracted over the response the HTTP GET produced: on status 200 return
the parsed body, otherwise the error message embedding the status code. -/
def fetch_player_stats (response : HttpResponse) : FetchResult :=
  if response.status_code = 200 then .stats response.body
  else .error ("Error: Received status code " ++ toString response.status_code)

/-! ## Prefixed-globals registry (`data_summary.py` lines 141-159)

Python `DataFrame` objects are mutable heap values; `value.copy()`
allocates a fresh object with the same table value. The heap is an
explicit store from addresses to table values, updated by in-place
mutation (`rename(inplace=True)` / `drop(inplace=True)`) through
`heapSet`. A Python dict of DataFrames maps names to addresses. -/

/-- The Python object store: a bound below which all live addresses sit,
and the address-to-table map (first match wins, updates prepend). -/
structure PyState where
  nextAddr : Nat
  heap : List (Nat × DataFrame)

/-- Dereference an address. -/
def heapGet (s : PyState) (a : Nat) : Option DataFrame := lookupA s.heap a

/-- In-place mutation of the object at `a` (e.g. `drop(..., inplace=True)`
on the DataFrame living there). -/
def heapSet (s : PyState) (a : Nat) (t : DataFrame) : PyState :=
  { s with heap := (a, t) :: s.heap }

/-- Allocate a fresh object holding `t`. -/
def alloc (s : PyState) (t : DataFrame) : Nat × PyState :=
  (s.nextAddr,
   { nextAddr := s.nextAddr + 1, heap := (s.nextAddr, t) :: s.heap })

/-- `value.copy()`: allocate a fresh object with the current table value
of the object at `a` (a dead address copies as the empty table; the
well-formedness hypotheses below rule that branch out). -/
def copy (s : PyState) (a : Nat) : Nat × PyState :=
  alloc s ((heapGet s a).getD (DataFrame.mk [] []))

/-- All addresses stored in the heap are live (below `nextAddr`). -/
def PyState.Wf (s : PyState) : Prop := ∀ p ∈ s.heap, p.1 < s.nextAddr

/-- `DataSummary.create_prefixed_global_dataframes` (data_summary.py
lines 141-159): for each entry of `df_dic` in order, allocate a copy of
the table and bind it in `globals()` under the prefixed name. Returns the
final store and the list of global bindings added, in insertion order
(the prefixed names are fresh, so dict insertion appends). -/
def create_prefixed_global_dataframes (s : PyState)
    (df_dic : List (String × Nat)) (pre : String) :
    PyState × List (String × Nat) :=
  match df_dic with
  | [] => (s, [])
  | (key, a) :: rest =>
      let p := copy s a
      let r := create_prefixed_global_dataframes p.2 rest pre
      (r.1, (pre ++ key, p.1) :: r.2)

/-! ## Lemmas about association-list lookup -/

theorem lookupA_eq_some_mem {κ α : Type} [DecidableEq κ]
    {m : List (κ × α)} {k : κ} {v : α} (h : lookupA m k = some v) :
    (k, v) ∈ m := by
  induction m with
  | nil => simp [lookupA] at h
  | cons p m ih =>
    by_cases hk : p.1 = k
    · simp only [lookupA, hk, if_pos rfl] at h
      subst hk
      cases h
      exact List.mem_cons_self _ _
    · simp only [lookupA, hk, if_neg hk] at h
      exact List.mem_cons_of_mem _ (ih h)

theorem lookupA_eq_none_iff {κ α : Type} [DecidableEq κ]
    {m : List (κ × α)} {k : κ} :
    lookupA m k = none ↔ k ∉ m.map Prod.fst := by
  induction m with
  | nil => simp [lookupA]
  | cons p m ih =>
    by_cases hk : p.1 = k
    · simp [lookupA, hk]
    · simp [lookupA, hk, ih, Ne.symm hk]

theorem lookupA_isSome_of_mem {κ α : Type} [DecidableEq κ]
    {m : List (κ × α)} {k : κ} {v : α} (h : (k, v) ∈ m) :
    (lookupA m k).isSome := by
  induction m with
  | nil => simp at h
  | cons p m ih =>
    by_cases hk : p.1 = k
    · simp [lookupA, hk]
    · rcases List.mem_cons.mp h with h1 | h1
      · exact absurd (congrArg Prod.fst h1.symm) hk
      · simpa [lookupA, hk] using ih h1

/-! ## Lemmas about first-occurrence dedup -/

theorem mem_dedupAux {seen l : List String} {k : String} :
    k ∈ dedupAux seen l ↔ k ∈ l ∧ k ∉ seen := by
  induction l generalizing seen with
  | nil => simp [dedupAux]
  | cons a l ih =>
    by_cases ha : a ∈ seen
    · simp only [dedupAux, if_pos ha, ih, List.mem_cons]
      constructor
      · rintro ⟨h1, h2⟩; exact ⟨Or.inr h1, h2⟩
      · rintro ⟨h1 | h1, h2⟩
        · exact absurd (h1 ▸ ha) h2
        · exact ⟨h1, h2⟩
    · simp only [dedupAux, if_neg ha, List.mem_cons, ih]
      constructor
      · rintro (rfl | ⟨h1, h2⟩)
        · exact ⟨Or.inl rfl, ha⟩
        · exact ⟨Or.inr h1, fun hs => h2 (Or.inr hs)⟩
      · rintro ⟨rfl | h1, h2⟩
        · exact Or.inl rfl
        · by_cases hka : k = a
          · exact Or.inl hka
          · exact Or.inr ⟨h1, by simp [hka, h2]⟩

theorem nodup_dedupAux (seen l : List String) :
    (dedupAux seen l).Nodup := by
  induction l generalizing seen with
  | nil => simp [dedupAux]
  | cons a l ih =>
    by_cases ha : a ∈ seen
    · simpa [dedupAux, if_pos ha] using ih seen
    · simp only [dedupAux, if_neg ha, List.nodup_cons]
      refine ⟨fun hmem => ?_, ih (a :: seen)⟩
      exact (mem_dedupAux.mp hmem).2 (List.mem_cons_self _ _)

theorem mem_firstDedup {l : List String} {k : String} :
    k ∈ firstDedup l ↔ k ∈ l := by
  simp [firstDedup, mem_dedupAux]

/-! ## Lemmas about the Group Materializer -/

theorem create_aux_length (i : Nat) (gs : List StatGroup) :
    (create_aux i gs).length = gs.length := by
  induction gs generalizing i with
  | nil => rfl
  | cons g gs ih => simp [create_aux, ih]

theorem create_aux_getElem? (i j : Nat) (gs : List StatGroup) :
    (create_aux i gs)[j]? =
      gs[j]?.map (fun g => (nameFor (i + j), pd_DataFrame g.stats)) := by
  induction gs generalizing i j with
  | nil => simp [create_aux]
  | cons g gs ih =>
    cases j with
    | zero => simp [create_aux]
    | succ j =>
      simp only [create_aux, List.getElem?_cons_succ, ih (i + 1) j]
      have : i + 1 + j = i + (j + 1) := by omega
      rw [this]

theorem create_aux_map_fst (i : Nat) (gs : List StatGroup) :
    (create_aux i gs).map Prod.fst =
      (List.range gs.length).map (fun j => nameFor (i + j)) := by
  induction gs generalizing i with
  | nil => rfl
  | cons g gs ih =>
    simp only [create_aux, List.map_cons, List.length_cons,
      List.range_succ_eq_map, List.map_map]
    refine congrArg₂ List.cons (by simp) ?_
    rw [ih (i + 1)]
    apply List.map_congr_left
    intro j _
    simp only [Function.comp_apply]
    exact congrArg nameFor (by omega)

/-! ## Lemmas about the Schema Normalizer -/

/-- After renaming with the role map restricted to the columns present,
no column label is a key of the role map any more, provided no value of
the map is itself a key (true of both concrete maps, by computation). -/
theorem renamed_label_not_key (m : List (String × String))
    (hvk : ∀ p ∈ m, p.2 ∉ m.map Prod.fst)
    (cols : List String) (c : String) (hc : c ∈ cols) :
    ((lookupA (m.filter (fun p => decide (p.1 ∈ cols))) c).getD c) ∉
      m.map Prod.fst := by
  cases h : lookupA (m.filter (fun p => decide (p.1 ∈ cols))) c with
  | some v =>
    have hmem : (c, v) ∈ m := List.mem_of_mem_filter (lookupA_eq_some_mem h)
    simpa using hvk (c, v) hmem
  | none =>
    simp only [Option.getD_none]
    intro hkey
    rcases List.mem_map.mp hkey with ⟨⟨p1, p2⟩, hp, hfst⟩
    simp only at hfst
    subst hfst
    have hfilter : (p1, p2) ∈ m.filter (fun p => decide (p.1 ∈ cols)) :=
      List.mem_filter.mpr ⟨hp, by simpa using hc⟩
    have hsome := lookupA_isSome_of_mem hfilter
    rw [h] at hsome
    simp at hsome

/-- Renaming against a map none of whose keys occur among the columns is
the identity. -/
theorem rename_eq_self_of_key_free (m : List (String × String))
    (df : DataFrame) (h : ∀ c ∈ df.cols, c ∉ m.map Prod.fst) :
    renameCols (m.filter (fun p => decide (p.1 ∈ df.cols))) df = df := by
  have hnil : m.filter (fun p => decide (p.1 ∈ df.cols)) = [] := by
    refine List.filter_eq_nil_iff.mpr fun p hp => ?_
    simp only [decide_eq_true_eq]
    intro hmem
    exact h p.1 hmem (List.mem_map.mpr ⟨p, hp, rfl⟩)
  simp [renameCols, hnil, lookupA]

theorem virat_rename_key_free (df : DataFrame) :
    ∀ c ∈ (virat_rename_columns df).cols,
      c ∉ virat_columns_names.map Prod.fst := by
  intro c hc
  simp only [virat_rename_columns, renameCols, List.mem_map] at hc
  obtain ⟨c0, hc0, rfl⟩ := hc
  exact renamed_label_not_key virat_columns_names (by decide) df.cols c0 hc0

theorem bumrah_rename_key_free (df : DataFrame) :
    ∀ c ∈ (bumrah_rename_columns df).cols,
      c ∉ bumrah_columns_names.map Prod.fst := by
  intro c hc
  simp only [bumrah_rename_columns, renameCols, List.mem_map] at hc
  obtain ⟨c0, hc0, rfl⟩ := hc
  exact renamed_label_not_key bumrah_columns_names (by decide) df.cols c0 hc0

theorem virat_rename_eq_self (df : DataFrame)
    (h : ∀ c ∈ df.cols, c ∉ virat_columns_names.map Prod.fst) :
    virat_rename_columns df = df :=
  rename_eq_self_of_key_free virat_columns_names df h

theorem bumrah_rename_eq_self (df : DataFrame)
    (h : ∀ c ∈ df.cols, c ∉ bumrah_columns_names.map Prod.fst) :
    bumrah_rename_columns df = df :=
  rename_eq_self_of_key_free bumrah_columns_names df h

/-- Each row of a pruned table is at most as long as the pruned column
list, whatever the original row length. -/
theorem pruned_row_length_le (rem : List String) (cols : List String)
    (r : List Val) :
    (((cols.zip r).filter (fun p => decide (p.1 ∉ rem))).map Prod.snd).length ≤
      (cols.filter (fun c => decide (c ∉ rem))).length := by
  induction cols generalizing r with
  | nil => simp
  | cons c cols ih =>
    cases r with
    | nil => simp
    | cons v r =>
      by_cases hc : c ∈ rem
      · simpa [List.zip_cons_cons, List.filter_cons, hc] using ih r
      · simpa [List.zip_cons_cons, List.filter_cons, hc] using
          Nat.succ_le_succ (ih r)

/-- Dropping the empty column list is the identity, provided no row is
longer than the column list. -/
theorem dropCols_nil (df : DataFrame)
    (hr : ∀ r ∈ df.rows, r.length ≤ df.cols.length) :
    dropCols [] df = df := by
  unfold dropCols
  cases df with
  | mk cols rows =>
    simp only at hr
    refine congrArg₂ DataFrame.mk (List.filter_eq_self.mpr (by simp)) ?_
    have hrow : ∀ r ∈ rows,
        (((cols.zip r).filter
          (fun p => decide (p.1 ∉ ([] : List String)))).map Prod.snd) = r := by
      intro r hrr
      rw [List.filter_eq_self.mpr (by simp)]
      exact List.map_snd_zip cols r (hr r hrr)
    calc List.map _ rows = List.map id rows :=
          List.map_congr_left fun r hrr => hrow r hrr
      _ = rows := List.map_id rows

/-- No column of a pruned table belongs to the removed list. -/
theorem dropCols_not_mem (rem : List String) (df : DataFrame) :
    ∀ c ∈ (dropCols rem df).cols, c ∉ rem := by
  intro c hc
  simpa using (List.mem_filter.mp hc).2

/-- Pruning a table none of whose columns are in the prune set is the
identity (given well-formed row lengths). -/
theorem remove_columns_eq_self (df : DataFrame)
    (h : ∀ c ∈ df.cols, c ∉ eda_columns_to_remove)
    (hr : ∀ r ∈ df.rows, r.length ≤ df.cols.length) :
    (remove_columns df).1 = df := by
  have hctr : eda_columns_to_remove.filter (fun c => decide (c ∈ df.cols)) =
      [] := by
    refine List.filter_eq_nil_iff.mpr fun c hc => ?_
    simp only [decide_eq_true_eq]
    exact fun hcc => h c hcc hc
  show dropCols _ df = df
  rw [hctr]
  exact dropCols_nil df hr

/-- Rows of a pruned table satisfy the row-length well-formedness
bound. -/
theorem remove_columns_rows_wf (df : DataFrame) :
    ∀ r ∈ (remove_columns df).1.rows,
      r.length ≤ (remove_columns df).1.cols.length := by
  intro r hr
  simp only [remove_columns, dropCols, List.mem_map] at hr
  obtain ⟨r0, _, rfl⟩ := hr
  exact pruned_row_length_le _ df.cols r0

/-- No column survives pruning while belonging to the hard-coded prune
set. -/
theorem remove_columns_cols_not_pruneset (df : DataFrame) :
    ∀ c ∈ (remove_columns df).1.cols, c ∉ eda_columns_to_remove := by
  intro c hc hceda
  simp only [remove_columns, dropCols] at hc
  have h1 := List.mem_filter.mp hc
  have hcols : c ∈ df.cols := h1.1
  have h2 : c ∉ eda_columns_to_remove ∨ c ∉ df.cols := by simpa using h1.2
  rcases h2 with h2 | h2
  · exact h2 hceda
  · exact h2 hcols

/-- Columns surviving pruning were columns before pruning. -/
theorem remove_columns_cols_subset (df : DataFrame) :
    ∀ c ∈ (remove_columns df).1.cols, c ∈ df.cols := by
  intro c hc
  simp only [remove_columns, dropCols] at hc
  exact (List.mem_filter.mp hc).1

/-- The prune step is idempotent on the table state. -/
theorem remove_columns_idem (df : DataFrame) :
    (remove_columns (remove_columns df).1).1 = (remove_columns df).1 :=
  remove_columns_eq_self _ (remove_columns_cols_not_pruneset df)
    (remove_columns_rows_wf df)

/-- The batting-role normalizer is idempotent. -/
theorem normalize_batting_idem (df : DataFrame) :
    normalize_batting (normalize_batting df) = normalize_batting df := by
  unfold normalize_batting
  have hkf : ∀ c ∈ (remove_columns (virat_rename_columns df)).1.cols,
      c ∉ virat_columns_names.map Prod.fst := fun c hc =>
    virat_rename_key_free df c (remove_columns_cols_subset _ c hc)
  rw [virat_rename_eq_self _ hkf]
  exact remove_columns_idem _

/-- The bowling-role normalizer is idempotent. -/
theorem normalize_bowling_idem (df : DataFrame) :
    normalize_bowling (normalize_bowling df) = normalize_bowling df := by
  unfold normalize_bowling
  have hkf : ∀ c ∈ (remove_columns (bumrah_rename_columns df)).1.cols,
      c ∉ bumrah_columns_names.map Prod.fst := fun c hc =>
    bumrah_rename_key_free df c (remove_columns_cols_subset _ c hc)
  rw [bumrah_rename_eq_self _ hkf]
  exact remove_columns_idem _

/-- The rename step alone is idempotent, batting role. -/
theorem virat_rename_idem (df : DataFrame) :
    virat_rename_columns (virat_rename_columns df) =
      virat_rename_columns df :=
  virat_rename_eq_self _ (virat_rename_key_free df)

/-- The rename step alone is idempotent, bowling role. -/
theorem bumrah_rename_idem (df : DataFrame) :
    bumrah_rename_columns (bumrah_rename_columns df) =
      bumrah_rename_columns df :=
  bumrah_rename_eq_self _ (bumrah_rename_key_free df)

/-- Normalizing a table already in descriptive form is a no-op. -/
theorem normalize_noop_of_descriptive (df : DataFrame)
    (hr : ∀ r ∈ df.rows, r.length ≤ df.cols.length)
    (hv : ∀ c ∈ df.cols, c ∉ virat_columns_names.map Prod.fst)
    (hb : ∀ c ∈ df.cols, c ∉ bumrah_columns_names.map Prod.fst)
    (hp : ∀ c ∈ df.cols, c ∉ eda_columns_to_remove) :
    normalize_batting df = df ∧ normalize_bowling df = df := by
  constructor
  · unfold normalize_batting
    rw [virat_rename_eq_self df hv]
    exact remove_columns_eq_self df hp hr
  · unfold normalize_bowling
    rw [bumrah_rename_eq_self df hb]
    exact remove_columns_eq_self df hp hr

/-! ## Lemmas about the object store and the prefixed-globals registry -/

theorem heapGet_heapSet_other (s : PyState) (b : Nat) (t : DataFrame)
    (a : Nat) (h : a ≠ b) : heapGet (heapSet s b t) a = heapGet s a := by
  simp only [heapGet, heapSet, lookupA]
  rw [if_neg (fun e => h e.symm)]

theorem heapGet_copy_other (s : PyState) (b a : Nat) (ha : a < s.nextAddr) :
    heapGet (copy s b).2 a = heapGet s a := by
  have hne : ¬(s.nextAddr = a) := by omega
  simp [copy, alloc, heapGet, lookupA, hne]

theorem copy_nextAddr (s : PyState) (b : Nat) :
    (copy s b).2.nextAddr = s.nextAddr + 1 := rfl

theorem heapGet_copy_fresh (s : PyState) (b : Nat) :
    heapGet (copy s b).2 s.nextAddr =
      some ((heapGet s b).getD (DataFrame.mk [] [])) := by
  simp [copy, alloc, heapGet, lookupA]

theorem copy_wf (s : PyState) (b : Nat) (h : s.Wf) : (copy s b).2.Wf := by
  intro p hp
  have hp2 : p = (s.nextAddr, (heapGet s b).getD (DataFrame.mk [] [])) ∨
      p ∈ s.heap := by simpa [copy, alloc] using hp
  show p.1 < s.nextAddr + 1
  rcases hp2 with rfl | hp2
  · exact Nat.lt_succ_self _
  · exact Nat.lt_succ_of_lt (h p hp2)

theorem addr_lt_of_isSome (s : PyState) (hWf : s.Wf) (a : Nat)
    (h : (heapGet s a).isSome) : a < s.nextAddr := by
  cases heq : heapGet s a with
  | none => rw [heq] at h; simp at h
  | some t => exact hWf (a, t) (lookupA_eq_some_mem heq)

theorem register_nextAddr_le (s : PyState) (dic : List (String × Nat))
    (pre : String) :
    s.nextAddr ≤ (create_prefixed_global_dataframes s dic pre).1.nextAddr := by
  induction dic generalizing s with
  | nil => exact Nat.le_refl _
  | cons p rest ih =>
    obtain ⟨k0, a0⟩ := p
    have h := ih (copy s a0).2
    simp only [create_prefixed_global_dataframes]
    rw [copy_nextAddr] at h
    omega

theorem register_wf (s : PyState) (dic : List (String × Nat))
    (pre : String) (h : s.Wf) :
    (create_prefixed_global_dataframes s dic pre).1.Wf := by
  induction dic generalizing s with
  | nil => exact h
  | cons p rest ih =>
    obtain ⟨k0, a0⟩ := p
    simpa only [create_prefixed_global_dataframes] using
      ih (copy s a0).2 (copy_wf s a0 h)

theorem register_heapGet_old (s : PyState) (dic : List (String × Nat))
    (pre : String) (a : Nat) (ha : a < s.nextAddr) :
    heapGet (create_prefixed_global_dataframes s dic pre).1 a =
      heapGet s a := by
  induction dic generalizing s with
  | nil => rfl
  | cons p rest ih =>
    obtain ⟨k0, a0⟩ := p
    simp only [create_prefixed_global_dataframes]
    rw [ih (copy s a0).2 (by rw [copy_nextAddr]; omega)]
    exact heapGet_copy_other s a0 a ha

theorem register_entries (s : PyState) (dic : List (String × Nat))
    (pre : String) (hWf : s.Wf)
    (hlive : ∀ p ∈ dic, (heapGet s p.2).isSome) :
    ∀ (i : Nat) (k : String) (a : Nat), dic[i]? = some (k, a) →
      ∃ a2, (create_prefixed_global_dataframes s dic pre).2[i]? =
          some (pre ++ k, a2) ∧ s.nextAddr ≤ a2 ∧
        heapGet (create_prefixed_global_dataframes s dic pre).1 a2 =
          heapGet s a := by
  induction dic generalizing s with
  | nil => intro i k a h; simp at h
  | cons p rest ih =>
    obtain ⟨k0, a0⟩ := p
    intro i k a h
    cases i with
    | zero =>
      simp only [List.getElem?_cons_zero, Option.some.injEq, Prod.mk.injEq] at h
      obtain ⟨rfl, rfl⟩ := h
      refine ⟨s.nextAddr, ?_, Nat.le_refl _, ?_⟩
      · simp [create_prefixed_global_dataframes, copy, alloc]
      · simp only [create_prefixed_global_dataframes]
        rw [register_heapGet_old _ rest pre s.nextAddr
            (by rw [copy_nextAddr]; omega)]
        rw [heapGet_copy_fresh]
        have hsome : (heapGet s a0).isSome :=
          hlive (k0, a0) (List.mem_cons_self _ _)
        cases heq : heapGet s a0 with
        | none => rw [heq] at hsome; simp at hsome
        | some t => simp
    | succ i =>
      simp only [List.getElem?_cons_succ] at h
      have hmem : (k, a) ∈ rest := by
        obtain ⟨hlt, heq⟩ := List.getElem?_eq_some.mp h
        exact heq ▸ List.getElem_mem hlt
      have hlive2 : ∀ q ∈ rest, (heapGet (copy s a0).2 q.2).isSome := by
        intro q hq
        rw [heapGet_copy_other s a0 q.2
          (addr_lt_of_isSome s hWf q.2 (hlive q (List.mem_cons_of_mem _ hq)))]
        exact hlive q (List.mem_cons_of_mem _ hq)
      obtain ⟨a2, h1, h2, h3⟩ :=
        ih (copy s a0).2 (copy_wf s a0 hWf) hlive2 i k a h
      have haddr : a < s.nextAddr :=
        addr_lt_of_isSome s hWf a
          (hlive (k, a) (List.mem_cons_of_mem _ hmem))
      refine ⟨a2, ?_, ?_, ?_⟩
      · simpa [create_prefixed_global_dataframes] using h1
      · rw [copy_nextAddr] at h2; omega
      · simp only [create_prefixed_global_dataframes]
        rw [h3, heapGet_copy_other s a0 a haddr]

/-! ## Claims -/

/-- C1: applying the Schema Normalizer (the role's rename step followed by
the prune step) twice yields the same table as applying it once, for both
roles; the rename and prune steps are individually idempotent as well; and
applying the normalizer to a table whose columns are already descriptive
(no role-map key and no prune-set code among them) is a no-op, not an
error. -/
theorem schema_normalizer_idempotent (df : DataFrame) :
    normalize_batting (normalize_batting df) = normalize_batting df
    ∧ normalize_bowling (normalize_bowling df) = normalize_bowling df
    ∧ virat_rename_columns (virat_rename_columns df) = virat_rename_columns df
    ∧ bumrah_rename_columns (bumrah_rename_columns df) =
        bumrah_rename_columns df
    ∧ (remove_columns (remove_columns df).1).1 = (remove_columns df).1
    ∧ ((∀ r ∈ df.rows, r.length ≤ df.cols.length) →
        (∀ c ∈ df.cols, c ∉ virat_columns_names.map Prod.fst ∧
          c ∉ bumrah_columns_names.map Prod.fst ∧
          c ∉ eda_columns_to_remove) →
        normalize_batting df = df ∧ normalize_bowling df = df) :=
  ⟨normalize_batting_idem df, normalize_bowling_idem df, virat_rename_idem df,
   bumrah_rename_idem df, remove_columns_idem df,
   fun hr h => normalize_noop_of_descriptive df hr
     (fun c hc => (h c hc).1) (fun c hc => (h c hc).2.1)
     (fun c hc => (h c hc).2.2)⟩

/-- Witness for C1: on a table already in descriptive form the batting
normalizer is a no-op. -/
theorem schema_normalizer_idempotent_witness :
    normalize_batting
        (DataFrame.mk ["overview", "average"] [[Val.na, Val.na]]) =
      DataFrame.mk ["overview", "average"] [[Val.na, Val.na]] :=
  ((schema_normalizer_idempotent
      (DataFrame.mk ["overview", "average"] [[Val.na, Val.na]])).2.2.2.2.2
    (by decide) (by decide)).1

/-- C2 (code bug): the spec and the method's own docstring say the prune
operation returns the resulting table, but `EDA.remove_columns` returns no
value — its `return dataframe` statement (eda.py line 133) is commented
out. The in-place drop on the table state is performed correctly. -/
theorem remove_columns_returns_no_value :
    (remove_columns (DataFrame.mk ["tt", "pr"] [[Val.int 1, Val.int 2]])).2 =
      none
    ∧ (remove_columns (DataFrame.mk ["tt", "pr"] [[Val.int 1, Val.int 2]])).1 =
        DataFrame.mk ["tt"] [[Val.int 1]]
    ∧ ∀ df : DataFrame, (remove_columns df).2 = none :=
  ⟨rfl, by decide, fun _ => rfl⟩

/-- C3: every group at zero-based position `i ≥ 24` is bound to the
synthesized name embedding the index `i`; a 26-group document produces
exactly the 24 canonical names followed by the two overflow names derived
from indices 24 and 25, which are distinct from each other and from all
canonical names. -/
theorem overflow_naming (j : StatsDoc) :
    (∀ i : Nat, 24 ≤ i → i < j.summary.groups.length →
        ((create_dataframes_from_json j).map Prod.fst)[i]? =
          some ("unnamed_dataframe_" ++ toString i))
    ∧ (j.summary.groups.length = 26 →
        (create_dataframes_from_json j).map Prod.fst =
          dataframes_names ++
            ["unnamed_dataframe_24", "unnamed_dataframe_25"]
        ∧ ("unnamed_dataframe_24" : String) ≠ "unnamed_dataframe_25"
        ∧ "unnamed_dataframe_24" ∉ dataframes_names
        ∧ "unnamed_dataframe_25" ∉ dataframes_names) := by
  have hlen : dataframes_names.length = 24 := rfl
  constructor
  · intro i h24 hN
    unfold create_dataframes_from_json
    rw [create_aux_map_fst, List.getElem?_map, List.getElem?_range hN]
    simp only [Option.map_some']
    rw [Nat.zero_add]
    unfold nameFor
    rw [if_neg (by omega)]
  · intro h26
    have hkeys : (create_dataframes_from_json j).map Prod.fst =
        (List.range 26).map nameFor := by
      unfold create_dataframes_from_json
      rw [create_aux_map_fst, h26]
      exact List.map_congr_left fun n _ => by rw [Nat.zero_add]
    refine ⟨?_, by decide, by decide, by decide⟩
    rw [hkeys]
    decide

/-- Witness for C3: a 26-group document binds position 24 to the
synthesized overflow name. -/
theorem overflow_naming_witness :
    ((create_dataframes_from_json
        (StatsDoc.mk (SummarySection.mk
          (List.replicate 26 (StatGroup.mk []))))).map Prod.fst)[24]? =
      some "unnamed_dataframe_24" :=
  ((overflow_naming (StatsDoc.mk (SummarySection.mk
      (List.replicate 26 (StatGroup.mk []))))).1 24 (by omega)
    (by simp)).trans (by rfl)

/-- C4 counterexample: the two role column maps are not key-disjoint —
the short code "tt" is a key of both the batting and the bowling map. -/
theorem role_maps_share_key_tt :
    "tt" ∈ virat_columns_names.map Prod.fst ∧
    "tt" ∈ bumrah_columns_names.map Prod.fst := by decide

/-- C4 (amended): the two role column maps share exactly the four keys
"tt", "sp", "mt", "in", and both maps send each shared key to the same
descriptive name; every other key belongs to exactly one of the maps. -/
theorem role_maps_overlap_exactly_metadata :
    (virat_columns_names.map Prod.fst).filter
        (fun k => decide (k ∈ bumrah_columns_names.map Prod.fst)) =
      ["tt", "sp", "mt", "in"]
    ∧ (bumrah_columns_names.map Prod.fst).filter
        (fun k => decide (k ∈ virat_columns_names.map Prod.fst)) =
      ["tt", "sp", "mt", "in"]
    ∧ lookupA virat_columns_names "tt" = lookupA bumrah_columns_names "tt"
    ∧ lookupA virat_columns_names "sp" = lookupA bumrah_columns_names "sp"
    ∧ lookupA virat_columns_names "mt" = lookupA bumrah_columns_names "mt"
    ∧ lookupA virat_columns_names "in" = lookupA bumrah_columns_names "in" := by
  decide

/-- C5: the Group Materializer yields one entry per group; its first
`min(N, 24)` keys are the canonical names in canonical order; and the
entry at each position is the table built from the group at the same
position, preserving input order. -/
theorem order_preservation (j : StatsDoc) :
    (create_dataframes_from_json j).length = j.summary.groups.length
    ∧ ((create_dataframes_from_json j).map Prod.fst).take
          (min j.summary.groups.length 24) =
        dataframes_names.take (min j.summary.groups.length 24)
    ∧ ∀ i : Nat, (create_dataframes_from_json j)[i]? =
        j.summary.groups[i]?.map
          (fun g => (nameFor i, pd_DataFrame g.stats)) := by
  have hlen : dataframes_names.length = 24 := rfl
  refine ⟨create_aux_length 0 _, ?_, ?_⟩
  · apply List.ext_getElem?
    intro n
    rw [List.getElem?_take, List.getElem?_take]
    by_cases hn : n < min j.summary.groups.length 24
    · rw [if_pos hn, if_pos hn]
      have hnN : n < j.summary.groups.length := by omega
      have hn24 : n < dataframes_names.length := by omega
      show ((create_aux 0 j.summary.groups).map Prod.fst)[n]? = _
      rw [create_aux_map_fst, List.getElem?_map, List.getElem?_range hnN,
        List.getElem?_eq_getElem hn24]
      simp only [Option.map_some', Option.some.injEq]
      unfold nameFor
      rw [if_pos (by omega), Nat.zero_add, List.getD_eq_getElem _ _ hn24]
    · rw [if_neg hn, if_neg hn]
  · intro i
    show (create_aux 0 j.summary.groups)[i]? = _
    rw [create_aux_getElem? 0 i]
    simp only [Nat.zero_add]

/-- C6: a group whose records have inconsistent key sets still
materializes a table: the column list is exactly the union of all record
keys (without duplicates), there is one row per record, and each row has
a value at every column — the record's value where the key exists, and
the missing value `Val.na` where it does not. -/
theorem sparse_row_tolerance (records : List Record) :
    (∀ k : String, k ∈ (pd_DataFrame records).cols ↔
        ∃ r ∈ records, k ∈ recordKeys r)
    ∧ (pd_DataFrame records).cols.Nodup
    ∧ (pd_DataFrame records).rows.length = records.length
    ∧ ∀ (i : Nat) (r : Record), records[i]? = some r →
        ∀ (jc : Nat) (c : String),
          (pd_DataFrame records).cols[jc]? = some c →
          ∃ row, (pd_DataFrame records).rows[i]? = some row ∧
            row[jc]? = some ((lookupA r c).getD Val.na) := by
  refine ⟨?_, ?_, ?_, ?_⟩
  · intro k
    simp only [pd_DataFrame, pd_Columns, mem_firstDedup, List.mem_flatten,
      List.mem_map]
    constructor
    · rintro ⟨l, ⟨r, hr, rfl⟩, hk⟩
      exact ⟨r, hr, hk⟩
    · rintro ⟨r, hr, hk⟩
      exact ⟨recordKeys r, ⟨r, hr, rfl⟩, hk⟩
  · exact nodup_dedupAux _ _
  · simp [pd_DataFrame]
  · intro i r hir jc c hjc
    refine ⟨(pd_Columns records).map (fun c => (lookupA r c).getD Val.na),
      ?_, ?_⟩
    · show (records.map _)[i]? = _
      rw [List.getElem?_map, hir]
      rfl
    · have hjc2 : (pd_Columns records)[jc]? = some c := hjc
      rw [List.getElem?_map, hjc2]
      rfl

/-- Witness for C6: with row A = {"a":1,"b":2} and row B = {"a":3}, row
B's entry under column "b" (position 1) is the missing value. -/
theorem sparse_row_tolerance_witness :
    ∃ row,
      (pd_DataFrame [[("a", Val.int 1), ("b", Val.int 2)],
          [("a", Val.int 3)]]).rows[1]? = some row ∧
      row[1]? = some Val.na :=
  (sparse_row_tolerance [[("a", Val.int 1), ("b", Val.int 2)],
      [("a", Val.int 3)]]).2.2.2
    1 [("a", Val.int 3)] (by rfl) 1 "b" (by rfl)

/-- C7: normalizing the table with columns {"tt","bta","pr","extra"}
against the batting role renames "tt" to "overview" and "bta" to
"average", removes "pr", and leaves "extra" untouched. -/
theorem selective_pruning_example :
    normalize_batting (DataFrame.mk ["tt", "bta", "pr", "extra"]
        [[Val.int 1, Val.int 2, Val.int 3, Val.int 4]]) =
      DataFrame.mk ["overview", "average", "extra"]
        [[Val.int 1, Val.int 2, Val.int 4]] := by decide

/-- C8: a document with zero groups yields an empty mapping, not an
error. -/
theorem empty_document_yields_empty_mapping (j : StatsDoc)
    (h : j.summary.groups = []) : create_dataframes_from_json j = [] := by
  unfold create_dataframes_from_json
  rw [h]
  rfl

/-- Witness for C8. -/
theorem empty_document_yields_empty_mapping_witness :
    create_dataframes_from_json
      (StatsDoc.mk (SummarySection.mk [])) = [] :=
  empty_document_yields_empty_mapping (StatsDoc.mk (SummarySection.mk [])) rfl

/-- C9: the fetch returns the parsed document exactly when the response
status is 200; on any other status it returns the error value carrying
the status code, which is never equal to a parsed document — so a
transport failure is distinguishable from a success with zero groups. -/
theorem fetch_status_discrimination (r : HttpResponse) :
    (∀ d : StatsDoc, fetch_player_stats r = .stats d ↔
        (r.status_code = 200 ∧ d = r.body))
    ∧ (r.status_code ≠ 200 →
        fetch_player_stats r =
          .error ("Error: Received status code " ++ toString r.status_code)
        ∧ ∀ d : StatsDoc, fetch_player_stats r ≠ .stats d) := by
  constructor
  · intro d
    unfold fetch_player_stats
    by_cases h : r.status_code = 200
    · simp only [if_pos h]
      constructor
      · intro hd
        cases hd
        exact ⟨h, rfl⟩
      · rintro ⟨_, rfl⟩
        rfl
    · simp only [if_neg h]
      constructor
      · intro hd
        exact absurd hd (fun hd => FetchResult.noConfusion hd)
      · rintro ⟨h200, _⟩
        exact absurd h200 h
  · intro h
    unfold fetch_player_stats
    rw [if_neg h]
    exact ⟨rfl, fun d hd => FetchResult.noConfusion hd⟩

/-- Witness for C9: a 404 response yields the error value with the status
embedded; a 200 response yields the parsed document. -/
theorem fetch_status_discrimination_witness :
    fetch_player_stats
        (HttpResponse.mk 404 (StatsDoc.mk (SummarySection.mk []))) =
      .error ("Error: Received status code " ++ toString (404 : Nat))
    ∧ fetch_player_stats
        (HttpResponse.mk 200 (StatsDoc.mk (SummarySection.mk []))) =
      .stats (StatsDoc.mk (SummarySection.mk [])) :=
  ⟨((fetch_status_discrimination
      (HttpResponse.mk 404 (StatsDoc.mk (SummarySection.mk [])))).2
      (by decide)).1,
   ((fetch_status_discrimination
      (HttpResponse.mk 200 (StatsDoc.mk (SummarySection.mk [])))).1
      (StatsDoc.mk (SummarySection.mk []))).mpr ⟨rfl, rfl⟩⟩

/-- C10: registering a dictionary of tables under prefixed names stores
an independent copy of each table: the originals' heap cells are left
untouched by registration, each entry is registered under the prefixed
name at a fresh address holding the original's table value, and mutating
any pre-existing object afterwards (in particular any original table)
leaves every registered value unchanged. -/
theorem register_prefixed_independent_copies (s : PyState)
    (df_dic : List (String × Nat)) (pre : String) (hWf : s.Wf)
    (hlive : ∀ p ∈ df_dic, (heapGet s p.2).isSome) :
    (∀ p ∈ df_dic,
        heapGet (create_prefixed_global_dataframes s df_dic pre).1 p.2 =
          heapGet s p.2)
    ∧ (∀ (i : Nat) (k : String) (a : Nat), df_dic[i]? = some (k, a) →
        ∃ a2, (create_prefixed_global_dataframes s df_dic pre).2[i]? =
            some (pre ++ k, a2) ∧
          heapGet (create_prefixed_global_dataframes s df_dic pre).1 a2 =
            heapGet s a)
    ∧ ∀ (b : Nat) (t : DataFrame), b < s.nextAddr →
        ∀ (i : Nat) (k : String) (a : Nat), df_dic[i]? = some (k, a) →
          ∃ a2, (create_prefixed_global_dataframes s df_dic pre).2[i]? =
              some (pre ++ k, a2) ∧
            heapGet
                (heapSet (create_prefixed_global_dataframes s df_dic pre).1
                  b t) a2 =
              heapGet s a := by
  refine ⟨?_, ?_, ?_⟩
  · intro p hp
    exact register_heapGet_old s df_dic pre p.2
      (addr_lt_of_isSome s hWf p.2 (hlive p hp))
  · intro i k a h
    obtain ⟨a2, h1, _, h3⟩ := register_entries s df_dic pre hWf hlive i k a h
    exact ⟨a2, h1, h3⟩
  · intro b t hb i k a h
    obtain ⟨a2, h1, h2, h3⟩ := register_entries s df_dic pre hWf hlive i k a h
    refine ⟨a2, h1, ?_⟩
    rw [heapGet_heapSet_other _ _ _ _ (by omega), h3]

/-- Witness for C10: after registering one table under "virat_", mutating
the original object at address 0 leaves the registered copy holding the
original table value. -/
theorem register_prefixed_independent_copies_witness :
    ∃ a2,
      (create_prefixed_global_dataframes
          (PyState.mk 1 [(0, DataFrame.mk ["tt"] [[Val.int 1]])])
          [("x", 0)] "virat_").2[0]? = some ("virat_x", a2) ∧
      heapGet
          (heapSet (create_prefixed_global_dataframes
              (PyState.mk 1 [(0, DataFrame.mk ["tt"] [[Val.int 1]])])
              [("x", 0)] "virat_").1
            0 (DataFrame.mk [] [])) a2 =
        heapGet (PyState.mk 1 [(0, DataFrame.mk ["tt"] [[Val.int 1]])]) 0 :=
  (register_prefixed_independent_copies
      (PyState.mk 1 [(0, DataFrame.mk ["tt"] [[Val.int 1]])])
      [("x", 0)] "virat_"
      (by intro p hp; rcases List.mem_singleton.mp hp with rfl; decide)
      (by intro p hp; rcases List.mem_singleton.mp hp with rfl; decide)).2.2
    0 (DataFrame.mk [] []) (by decide) 0 "x" 0 (by rfl)

end Cricket
